import Mathlib

/-!
Verification development for the gittuf policy package.

The Go source of `internal/policy` (policy state loading, verification,
path-based key resolution, namespace initialization, policy commits) is
shallowly embedded below.  Git object hashes are natural numbers with 0 as
the zero hash; the object store, references and the RSL are explicit
association lists; JSON decoding of DSSE payloads is modelled by carrying
the decode results inside the `Envelope` value; cryptographic signature
verification is an abstract parameter `check : Key → Sig → Bool`, matching
the spec's external "given payload, signature, key → accept/reject"
contract.
-/

namespace Gittuf

/-- Git object hashes; 0 is the zero hash. -/
abbrev Hash := Nat

/-- A TUF public key (internal/tuf.Key).  Only the content-derived key id
drives the verification logic; raw key material is external. -/
structure Key where
  keyID : String
  deriving DecidableEq, Repr

/-- One DSSE signature: the signing key id plus opaque signature bytes. -/
structure Sig where
  keyID : String
  bytes : String
  deriving DecidableEq, Repr

/-- A TUF role: key ids and a signature threshold. -/
structure Role where
  keyIDs : List String
  threshold : Nat
  deriving DecidableEq, Repr

/-- Root metadata: keys and roles maps (as association lists). -/
structure RootMetadata where
  version : Nat
  keys : List (String × Key)
  roles : List (String × Role)
  deriving DecidableEq, Repr

/-- A delegation entry of a targets document. -/
structure Delegation where
  name : String
  keyIDs : List String
  threshold : Nat
  paths : List String
  terminating : Bool
  deriving DecidableEq, Repr

/-- The delegations block of a targets document. -/
structure Delegations where
  keys : List (String × Key)
  roles : List Delegation
  deriving DecidableEq, Repr

/-- Targets metadata; `delegations` is a nullable pointer in the source. -/
structure TargetsMetadata where
  version : Nat
  delegations : Option Delegations
  deriving DecidableEq, Repr

/-- A DSSE envelope.  Base64/JSON decoding of the payload is modelled by
carrying the decode outcomes: `payloadRoot` (resp. `payloadTargets`) is the
result of deserializing the payload as root (resp. targets) metadata, and
`none` stands for a decode failure. -/
structure Envelope where
  payloadRoot : Option RootMetadata
  payloadTargets : Option TargetsMetadata
  signatures : List Sig
  deriving DecidableEq, Repr

/-- policy.State: the in-memory policy bundle.  The Go fields are pointers
(`nil` = `none`) and a map plus a slice, modelled as association list and
list. -/
structure State where
  rootEnvelope : Option Envelope
  targetsEnvelope : Option Envelope
  delegationEnvelopes : List (String × Envelope)
  rootPublicKeys : List Key
  deriving DecidableEq, Repr

/-- The error kinds surfaced by the embedded operations.  `nilPanic` and
`keyLookupFailure` stand for the run-time nil dereferences the Go code can
reach (they are not `error` returns in Go). -/
inductive Err where
  | nilPanic
  | invalidThreshold
  | belowThreshold
  | decodeFailure
  | validateFailure
  | keyLookupFailure
  | danglingDelegationMetadata
  | metadataNotFound
  | invalidPolicyTree
  | notRSLEntry
  | entryDoesNotMatchRef
  | objectNotFound
  | keyParseFailure
  | noRecordOfCommit
  | rslEntryNotFound
  | refNotFound
  | rslAppendFailed
  | policyExists
  | sliceBoundsPanic
  deriving DecidableEq, Repr

/-- PolicyRef (the fixed policy namespace name). -/
def PolicyRef : String := "refs/gittuf/policy"

/-- rsl.Ref (the fixed RSL namespace name). -/
def RSLRef : String := "refs/gittuf/reference-state-log"

/-- TargetsRoleName. -/
def TargetsRoleName : String := "targets"

/-- RootRoleName. -/
def RootRoleName : String := "root"

/-- Association list lookup (Go map read; `none` = key absent / zero value
distinction is made at each use site). -/
def alookup {κ α : Type} [DecidableEq κ] : List (κ × α) → κ → Option α
  | [], _ => none
  | (k, v) :: rest, key => if k = key then some v else alookup rest key

/-- Association list update (Go map write): replace the first binding of
the key, appending a fresh binding when absent. -/
def aupdate {κ α : Type} [DecidableEq κ] : List (κ × α) → κ → α → List (κ × α)
  | [], key, v => [(key, v)]
  | (k, w) :: rest, key, v =>
    if k = key then (k, v) :: rest else (k, w) :: aupdate rest key v

theorem alookup_aupdate_self {κ α : Type} [DecidableEq κ]
    (l : List (κ × α)) (k : κ) (v : α) : alookup (aupdate l k v) k = some v := by
  induction l with
  | nil => simp [aupdate, alookup]
  | cons p rest ih =>
    obtain ⟨k', w⟩ := p
    by_cases h : k' = k
    · simp [aupdate, alookup, h]
    · simp [aupdate, alookup, h, ih]

theorem alookup_aupdate_ne {κ α : Type} [DecidableEq κ]
    (l : List (κ × α)) (k k' : κ) (v : α) (h : k ≠ k') :
    alookup (aupdate l k v) k' = alookup l k' := by
  induction l with
  | nil => simp [aupdate, alookup, h]
  | cons p rest ih =>
    obtain ⟨k₀, w⟩ := p
    by_cases h0 : k₀ = k
    · subst h0
      simp [aupdate, alookup, h]
    · simp [aupdate, alookup, h0, ih]

/-- Split a character list on the path separator. -/
def splitOnSlash : List Char → List (List Char)
  | [] => [[]]
  | c :: rest =>
    let r := splitOnSlash rest
    if c = '/' then [] :: r
    else
      match r with
      | [] => [[c]]
      | seg :: segs => (c :: seg) :: segs

/-- Segment-wise glob matching.  Modelled from the spec: a pattern segment
`*` matches a single path segment, `**` matches any suffix, all other
segments match literally (case-sensitive). -/
def segMatches : List (List Char) → List (List Char) → Bool
  | [], [] => true
  | [], _ :: _ => false
  | p :: ps, [] => p = ['*', '*'] && ps.isEmpty
  | p :: ps, q :: qs =>
    if p = ['*', '*'] then true
    else if p = ['*'] then segMatches ps qs
    else p = q && segMatches ps qs

/-- Scoped glob pattern matching on whole path strings. -/
def patternMatches (pat target : String) : Bool :=
  segMatches (splitOnSlash pat.data) (splitOnSlash target.data)

/-- tuf.Delegation.Matches.  Modelled from the spec: the delegation
matches a path when any of its patterns matches. -/
def Delegation.matchesPath (d : Delegation) (path : String) : Bool :=
  d.paths.any fun p => patternMatches p path

/-- dsse.VerifyEnvelope.  Modelled from the spec: every signature is tried
against every verifier, distinct accepted key ids are counted, and
acceptance needs at least `threshold` of them; a threshold of zero or less
is rejected outright (the backing library refuses it, as the root-keys
test in the source requires). -/
def verifyEnvelope (check : Key → Sig → Bool) (env : Envelope)
    (verifiers : List Key) (threshold : Nat) : Except Err Unit :=
  if threshold = 0 then .error .invalidThreshold
  else
    let accepted :=
      (verifiers.filter fun k => env.signatures.any fun sg => check k sg).map Key.keyID
    if threshold ≤ accepted.dedup.length then .ok () else .error .belowThreshold

/-- True when the strings in the list are pairwise distinct. -/
def distinctNames : List String → Bool
  | [] => true
  | n :: rest => !rest.contains n && distinctNames rest

/-- tuf.TargetsMetadata.Validate.  Modelled from the spec: non-empty role
names, thresholds at least 1, unique delegation names within a parent,
non-empty pattern lists; an absent delegations block is valid. -/
def TargetsMetadata.Validate (t : TargetsMetadata) : Bool :=
  match t.delegations with
  | none => true
  | some ds =>
    ds.roles.all (fun d => d.name != "" && Nat.ble 1 d.threshold && !d.paths.isEmpty)
      && distinctNames (ds.roles.map Delegation.name)

/-- (*State).GetRootMetadata: decode the root envelope payload.  A nil
root envelope makes the Go code dereference nil (`nilPanic`). -/
def getRootMetadata (s : State) : Except Err RootMetadata :=
  match s.rootEnvelope with
  | none => .error .nilPanic
  | some re =>
    match re.payloadRoot with
    | none => .error .decodeFailure
    | some rm => .ok rm

/-- (*State).GetTargetsMetadata: for the top-level "targets" role the
targets envelope is decoded without a nil check (nil reaches the
dereference, `nilPanic`); any other role name is looked up in the
delegation envelopes map, with `metadataNotFound` when absent. -/
def getTargetsMetadata (s : State) (roleName : String) : Except Err TargetsMetadata :=
  if roleName = TargetsRoleName then
    match s.targetsEnvelope with
    | none => .error .nilPanic
    | some e =>
      match e.payloadTargets with
      | none => .error .decodeFailure
      | some tm => .ok tm
  else
    match alookup s.delegationEnvelopes roleName with
    | none => .error .metadataNotFound
    | some e =>
      match e.payloadTargets with
      | none => .error .decodeFailure
      | some tm => .ok tm

/-- (*State).HasTargetsRole. -/
def hasTargetsRole (s : State) (roleName : String) : Bool :=
  if roleName = TargetsRoleName then s.targetsEnvelope.isSome
  else (alookup s.delegationEnvelopes roleName).isSome

/-- Go map delete combined with lookup: find the binding for `name` and
return its value together with the remaining bindings. -/
def lookupRemove {α : Type} (name : String) :
    List (String × α) → Option (α × List (String × α))
  | [] => none
  | (n, e) :: rest =>
    if n = name then some (e, rest)
    else
      match lookupRemove name rest with
      | none => none
      | some (e', rest') => some (e', (n, e) :: rest')

theorem lookupRemove_length {α : Type} {name : String} :
    ∀ {l : List (String × α)} {e : α} {l' : List (String × α)},
      lookupRemove name l = some (e, l') → l'.length < l.length := by
  intro l
  induction l with
  | nil => intro e l' h; simp [lookupRemove] at h
  | cons p rest ih =>
    intro e l' h
    obtain ⟨n, v⟩ := p
    by_cases hn : n = name
    · simp [lookupRemove, hn] at h
      obtain ⟨he, hl⟩ := h
      subst hl
      simp
    · simp [lookupRemove, hn] at h
      rcases hrec : lookupRemove name rest with _ | ⟨e', rest'⟩
      · rw [hrec] at h; simp at h
      · rw [hrec] at h
        simp at h
        obtain ⟨he, hl⟩ := h
        subst hl
        have := ih hrec
        simpa using Nat.succ_lt_succ this

/-- Build the DSSE verifiers for the listed key ids from an accumulated
key map (signerverifier construction is abstracted to the key itself); a
missing id makes the Go code construct a verifier from a nil key and
dereference it (`none` here, surfaced as `keyLookupFailure`). -/
def collectVerifierKeys (keys : List (String × Key)) (ids : List String) :
    Option (List Key) :=
  ids.mapM fun i => alookup keys i

/-- Merge a metadata document's own delegation keys into the accumulated
key map (Go map assignment in a loop). -/
def mergeKeys (dst src : List (String × Key)) : List (String × Key) :=
  src.foldl (fun m p => aupdate m p.1 p.2) dst

/-- The queue-driven delegation walk of (*State).Verify (source lines
785-837): pop a delegation; when it has an envelope, consume (delete) the
envelope, envelope-verify it with the keys accumulated so far and the
delegation's threshold, decode and validate it, merge its delegation keys
and enqueue its child roles at the back.  Returns the envelopes never
consumed when the queue empties. -/
def verifyDelegationsAux (check : Key → Sig → Bool) (dkeys : List (String × Key))
    (queue : List Delegation) (envs : List (String × Envelope)) :
    Except Err (List (String × Envelope)) :=
  match queue with
  | [] => .ok envs
  | d :: rest =>
    match h : lookupRemove d.name envs with
    | none => verifyDelegationsAux check dkeys rest envs
    | some (denv, envs') =>
      match collectVerifierKeys dkeys d.keyIDs with
      | none => .error .keyLookupFailure
      | some vs =>
        match verifyEnvelope check denv vs d.threshold with
        | .error e => .error e
        | .ok () =>
          match denv.payloadTargets with
          | none => .error .decodeFailure
          | some dm =>
            if dm.Validate then
              match dm.delegations with
              | none => verifyDelegationsAux check dkeys rest envs'
              | some dls =>
                verifyDelegationsAux check (mergeKeys dkeys dls.keys)
                  (rest ++ dls.roles) envs'
            else .error .validateFailure
  termination_by (envs.length, queue.length)
  decreasing_by
  · exact Prod.Lex.right envs.length (Nat.lt_succ_self rest.length)
  · exact Prod.Lex.left _ _ (lookupRemove_length h)
  · exact Prod.Lex.left _ _ (lookupRemove_length h)

/-- The zero value of tuf.Role (a Go map read of an absent role). -/
def roleFor (rm : RootMetadata) (name : String) : Role :=
  (alookup rm.roles name).getD ⟨[], 0⟩

/-- (*State).Verify (source lines 712-844): envelope-verify the root with
the root public keys at a threshold equal to their number; stop when no
targets envelope is held; otherwise decode root metadata, envelope-verify
targets with the keys of root's "targets" role at that role's threshold;
then, when delegation envelopes are held, decode and validate the targets
metadata and run the delegation walk; envelopes left unconsumed yield
`danglingDelegationMetadata`.  The walk operates on a copy of the
envelopes map, so the state is never mutated. -/
def Verify (check : Key → Sig → Bool) (s : State) : Except Err Unit :=
  match s.rootEnvelope with
  | none => .error .nilPanic
  | some renv =>
    match verifyEnvelope check renv s.rootPublicKeys s.rootPublicKeys.length with
    | .error e => .error e
    | .ok () =>
      match s.targetsEnvelope with
      | none => .ok ()
      | some tenv =>
        match renv.payloadRoot with
        | none => .error .decodeFailure
        | some rm =>
          match collectVerifierKeys rm.keys (roleFor rm TargetsRoleName).keyIDs with
          | none => .error .keyLookupFailure
          | some tvs =>
            match verifyEnvelope check tenv tvs (roleFor rm TargetsRoleName).threshold with
            | .error e => .error e
            | .ok () =>
              if s.delegationEnvelopes.isEmpty then .ok ()
              else
                match tenv.payloadTargets with
                | none => .error .decodeFailure
                | some tm =>
                  if tm.Validate then
                    match tm.delegations with
                    | none => .error .nilPanic
                    | some dels =>
                      match verifyDelegationsAux check dels.keys dels.roles
                          s.delegationEnvelopes with
                      | .error e => .error e
                      | .ok leftover =>
                        if leftover.isEmpty then .ok ()
                        else .error .danglingDelegationMetadata
                  else .error .validateFailure

/-- The loop of (*State).FindPublicKeysForPath (source lines 672-706).
The loop returns the trusted keys as soon as at most one queue entry (the
reserved trailing allow-rule slot) remains.  A matching delegation
contributes the raw map lookups of its key ids (Go appends the possibly
nil lookup result, hence `Option Key`); when the matching delegation has
its own envelope its keys are merged and, for a terminating delegation,
the queue is replaced by the child roles, while a non-terminating one puts
the child roles minus their trailing allow-rule ahead of the remaining
siblings — the slice `Roles[:len(Roles)-1]` taken there crashes with a
slice-bounds run-time panic when the child roles list is empty, modelled
as the `sliceBoundsPanic` outcome.  Go can loop forever on cyclic
delegations, so the model takes fuel and returns `none` when it runs
out. -/
def fpkLoop (s : State) (path : String) :
    Nat → List (String × Key) → List Delegation → List (Option Key) →
    Option (Except Err (List (Option Key)))
  | 0, _, _, _ => none
  | Nat.succ fuel, allKeys, queue, trusted =>
    if queue.length ≤ 1 then some (.ok trusted)
    else
      match queue with
      | [] => some (.ok trusted)
      | d :: rest =>
        if d.matchesPath path then
          let trusted' := trusted ++ d.keyIDs.map fun kid => alookup allKeys kid
          if hasTargetsRole s d.name then
            match getTargetsMetadata s d.name with
            | .error e => some (.error e)
            | .ok dm =>
              match dm.delegations with
              | none => some (.error .nilPanic)
              | some dls =>
                let allKeys' := mergeKeys allKeys dls.keys
                if d.terminating then
                  fpkLoop s path fuel allKeys' dls.roles trusted'
                else if dls.roles.isEmpty then some (.error .sliceBoundsPanic)
                else
                  fpkLoop s path fuel allKeys' (dls.roles.dropLast ++ rest) trusted'
          else fpkLoop s path fuel allKeys rest trusted'
        else fpkLoop s path fuel allKeys rest trusted

/-- (*State).FindPublicKeysForPath (source lines 658-707): verify the
state, decode the top-level targets metadata, then run the delegation
traversal loop on its roles. -/
def FindPublicKeysForPath (check : Key → Sig → Bool) (fuel : Nat) (s : State)
    (path : String) : Option (Except Err (List (Option Key))) :=
  match Verify check s with
  | .error e => some (.error e)
  | .ok () =>
    match getTargetsMetadata s TargetsRoleName with
    | .error e => some (.error e)
    | .ok tm =>
      match tm.delegations with
      | none => some (.error .nilPanic)
      | some dls => fpkLoop s path fuel dls.keys dls.roles []

/-- Add the delegation keys of the named roles' metadata (helper for
`publicKeys`, iterating the delegation envelopes map). -/
def addDelegedKeys (s : State) : List String → List (String × Key) →
    Except Err (List (String × Key))
  | [], acc => .ok acc
  | roleName :: rest, acc =>
    match getTargetsMetadata s roleName with
    | .error e => .error e
    | .ok dm =>
      match dm.delegations with
      | none => .error .nilPanic
      | some dls => addDelegedKeys s rest (mergeKeys acc dls.keys)

/-- (*State).PublicKeys (source lines 576-622): accumulate the root public
keys and the root metadata's keys; when the state has no targets envelope
the function returns the nil map together with the nil error left over
from the successful root decode, silently dropping the accumulated keys;
otherwise the keys of the top-level targets metadata and of every
delegation envelope are merged in.  The Go nil map is `none`. -/
def publicKeys (s : State) : Except Err (Option (List (String × Key))) :=
  let all1 := s.rootPublicKeys.foldl (fun m k => aupdate m k.keyID k) []
  match getRootMetadata s with
  | .error e => .error e
  | .ok rm =>
    let all2 := mergeKeys all1 rm.keys
    match s.targetsEnvelope with
    | none => .ok none
    | some _ =>
      match getTargetsMetadata s TargetsRoleName with
      | .error e => .error e
      | .ok tm =>
        match tm.delegations with
        | none => .error .nilPanic
        | some dls =>
          match addDelegedKeys s (s.delegationEnvelopes.map Prod.fst)
              (mergeKeys all2 dls.keys) with
          | .error e => .error e
          | .ok allFinal => .ok (some allFinal)

/-- A stored blob, carrying the decode outcomes of its bytes (as an
envelope or as a public key). -/
structure Blob where
  asEnvelope : Option Envelope
  asKey : Option Key
  deriving DecidableEq, Repr

/-- A stored commit object. -/
structure CommitObj where
  treeHash : Hash
  parents : List Hash
  message : String
  deriving DecidableEq, Repr

/-- An RSL entry: a reference entry or an annotation. -/
inductive RSLEntry where
  | reference (refName : String) (targetID : Hash)
  | annot (entryIDs : List Hash) (skip : Bool) (message : String)
  deriving DecidableEq, Repr

/-- An entry of the reference state log together with its own commit id. -/
structure LogEntry where
  id : Hash
  entry : RSLEntry
  deriving DecidableEq, Repr

/-- The content-addressed object store: trees keyed by hash to their
`(name, hash)` entries, blobs, and commits. -/
structure ObjStore where
  trees : List (Hash × List (String × Hash))
  blobs : List (Hash × Blob)
  commits : List (Hash × CommitObj)
  deriving DecidableEq, Repr

/-- The Git repository: references, the object store, the RSL modelled as
its chain of entries oldest first, and a fresh-id source standing in for
content addressing (ids handed out are positive, so the zero hash never
names an object). -/
structure Repo where
  refs : List (String × Hash)
  objs : ObjStore
  rsl : List LogEntry
  nextID : Nat
  deriving DecidableEq, Repr

/-- repo.Reference: resolve a reference; `none` is ErrReferenceNotFound. -/
def lookupRef (repo : Repo) (name : String) : Option Hash :=
  alookup repo.refs name

/-- repo.Storer.SetReference. -/
def setRefRepo (repo : Repo) (name : String) (h : Hash) : Repo :=
  { repo with refs := aupdate repo.refs name h }

/-- policy.InitializeNamespace (source lines 397-415): reading the policy
ref, a missing reference is tolerated, an existing reference with a
non-zero hash is `policyExists`, and otherwise the policy ref is set to
the zero hash.  The repository is returned alongside the verdict (the Go
function mutates the repository in place). -/
def initializeNamespace (repo : Repo) : Except Err Unit × Repo :=
  match lookupRef repo PolicyRef with
  | some h =>
    if h ≠ 0 then (.error .policyExists, repo)
    else (.ok (), setRefRepo repo PolicyRef 0)
  | none => (.ok (), setRefRepo repo PolicyRef 0)

/-- Scan the root tree entries of a policy commit (the switch of source
lines 479-488): entries named "metadata" and "keys" record their hashes
(zero when never seen, the Go zero value), any other name aborts. -/
def scanPolicyTree : List (String × Hash) → Hash → Hash → Option (Hash × Hash)
  | [], m, k => some (m, k)
  | (n, h) :: rest, m, k =>
    if n = "metadata" then scanPolicyTree rest h k
    else if n = "keys" then scanPolicyTree rest m h
    else none

/-- strings.TrimSuffix(name, ".json"). -/
def trimJson (name : String) : String :=
  if name.endsWith ".json" then name.dropRight 5 else name

/-- The metadata-tree loop of LoadStateForEntry (source lines 502-525):
read each blob, decode it as an envelope, and route it into the state by
file name. -/
def loadMetadataEntries (os : ObjStore) : List (String × Hash) → State → Except Err State
  | [], st => .ok st
  | (name, h) :: rest, st =>
    match alookup os.blobs h with
    | none => .error .objectNotFound
    | some b =>
      match b.asEnvelope with
      | none => .error .decodeFailure
      | some env =>
        let st' :=
          if name = "root.json" then { st with rootEnvelope := some env }
          else if name = "targets.json" then { st with targetsEnvelope := some env }
          else { st with delegationEnvelopes :=
                   aupdate st.delegationEnvelopes (trimJson name) env }
        loadMetadataEntries os rest st'

/-- The keys-tree loop of LoadStateForEntry (source lines 527-543): read
each blob and parse it as a public key. -/
def loadKeysEntries (os : ObjStore) : List (String × Hash) → List Key → Except Err (List Key)
  | [], acc => .ok acc
  | (_, h) :: rest, acc =>
    match alookup os.blobs h with
    | none => .error .objectNotFound
    | some b =>
      match b.asKey with
      | none => .error .keyParseFailure
      | some k => loadKeysEntries os rest (acc ++ [k])

/-- The empty policy state (Go's `&State{}`). -/
def emptyState : State := ⟨none, none, [], []⟩

/-- policy.LoadStateForEntry (source lines 450-550): reject annotations
and entries for other refs; fetch the referenced policy commit and its
root tree; reject trees with more than two entries or with an entry named
other than "metadata"/"keys"; load both subtrees, route the metadata
blobs and parse the key blobs; finally self-verify the loaded state. -/
def loadStateForEntry (check : Key → Sig → Bool) (os : ObjStore) (e : RSLEntry) :
    Except Err State :=
  match e with
  | .annot _ _ _ => .error .notRSLEntry
  | .reference refName targetID =>
    if refName ≠ PolicyRef then .error .entryDoesNotMatchRef
    else
      match alookup os.commits targetID with
      | none => .error .objectNotFound
      | some pc =>
        match alookup os.trees pc.treeHash with
        | none => .error .objectNotFound
        | some rootTree =>
          if 2 < rootTree.length then .error .invalidPolicyTree
          else
            match scanPolicyTree rootTree 0 0 with
            | none => .error .invalidPolicyTree
            | some (mID, kID) =>
              match alookup os.trees mID with
              | none => .error .objectNotFound
              | some mTree =>
                match alookup os.trees kID with
                | none => .error .objectNotFound
                | some kTree =>
                  match loadMetadataEntries os mTree emptyState with
                  | .error err => .error err
                  | .ok st1 =>
                    match loadKeysEntries os kTree [] with
                    | .error err => .error err
                    | .ok ks =>
                      let st := { st1 with rootPublicKeys := ks }
                      match Verify check st with
                      | .error err => .error err
                      | .ok () => .ok st

/-- Whether a log entry is a reference entry from whose target the given
commit is reachable, under the ancestry oracle `knows` (gitinterface's
KnowsCommit: `knows target commit` is true when the commit equals the
target or is one of its ancestors). -/
def refEntryKnows (knows : Hash → Hash → Bool) (commit : Hash) (le : LogEntry) : Bool :=
  match le.entry with
  | .reference _ t => knows t commit
  | .annot _ _ _ => false

/-- rsl.GetFirstReferenceEntryForCommit.  Modelled from the spec: the
oldest reference entry from whose target the commit is reachable;
`noRecordOfCommit` when there is none. -/
def getFirstReferenceEntryForCommit (knows : Hash → Hash → Bool)
    (log : List LogEntry) (commit : Hash) : Except Err LogEntry :=
  match log.find? (refEntryKnows knows commit) with
  | some le => .ok le
  | none => .error .noRecordOfCommit

/-- Whether a log entry is a reference entry for the given ref name. -/
def refEntryFor (refName : String) (le : LogEntry) : Bool :=
  match le.entry with
  | .reference rn _ => rn = refName
  | .annot _ _ _ => false

/-- rsl.GetLatestReferenceEntryForRefBefore.  Modelled from the spec: walk
backward starting from the parent of the entry `id`, i.e. search the
entries strictly preceding `id` in the chain, newest first, for a
reference entry of the ref; `rslEntryNotFound` when there is none. -/
def getLatestReferenceEntryForRefBefore (log : List LogEntry) (refName : String)
    (id : Hash) : Except Err LogEntry :=
  let before := log.takeWhile fun le => le.id ≠ id
  match before.reverse.find? (refEntryFor refName) with
  | some le => .ok le
  | none => .error .rslEntryNotFound

/-- policy.GetStateForCommit (source lines 558-573): locate the first RSL
entry recording the commit — with `noRecordOfCommit` converted into "no
state, no error" — then load the state of the latest policy-ref entry
strictly before it. -/
def GetStateForCommit (check : Key → Sig → Bool) (knows : Hash → Hash → Bool)
    (repo : Repo) (commit : Hash) : Except Err (Option State) :=
  match getFirstReferenceEntryForCommit knows repo.rsl commit with
  | .error .noRecordOfCommit => .ok none
  | .error e => .error e
  | .ok firstSeen =>
    match getLatestReferenceEntryForRefBefore repo.rsl PolicyRef firstSeen.id with
    | .error e => .error e
    | .ok pe =>
      match loadStateForEntry check repo.objs pe.entry with
      | .error e => .error e
      | .ok st => .ok (some st)

/-- Store a blob under a fresh id. -/
def writeBlobR (repo : Repo) (b : Blob) : Hash × Repo :=
  (repo.nextID + 1,
   { repo with
      objs := { repo.objs with blobs := repo.objs.blobs ++ [(repo.nextID + 1, b)] },
      nextID := repo.nextID + 1 })

/-- Store a tree under a fresh id. -/
def writeTreeR (repo : Repo) (t : List (String × Hash)) : Hash × Repo :=
  (repo.nextID + 1,
   { repo with
      objs := { repo.objs with trees := repo.objs.trees ++ [(repo.nextID + 1, t)] },
      nextID := repo.nextID + 1 })

/-- Store a commit object under a fresh id. -/
def writeCommitR (repo : Repo) (c : CommitObj) : Hash × Repo :=
  (repo.nextID + 1,
   { repo with
      objs := { repo.objs with commits := repo.objs.commits ++ [(repo.nextID + 1, c)] },
      nextID := repo.nextID + 1 })

/-- gitinterface.Commit (gitinterface source lines 22-57 and 61-69): read
the target ref, creating it at the zero hash when missing; build a commit
whose parent is the current tip when non-zero; write it and move the ref
to it (the compare-and-set succeeds in this sequential model). -/
def gitCommit (repo : Repo) (treeHash : Hash) (targetRef : String)
    (message : String) : Hash × Repo :=
  let cur : Hash × Repo :=
    match lookupRef repo targetRef with
    | some h => (h, repo)
    | none => (0, setRefRepo repo targetRef 0)
  let commit : CommitObj :=
    { treeHash := treeHash,
      parents := if cur.1 ≠ 0 then [cur.1] else [],
      message := message }
  let w := writeCommitR cur.2 commit
  (w.1, setRefRepo w.2 targetRef w.1)

/-- Write the metadata envelopes of a state as `<name>.json` blobs,
returning the tree entries. -/
def writeEnvBlobs : Repo → List (String × Option Envelope) →
    List (String × Hash) × Repo
  | repo, [] => ([], repo)
  | repo, (n, e) :: rest =>
    let w := writeBlobR repo ⟨e, none⟩
    let r := writeEnvBlobs w.2 rest
    ((n ++ ".json", w.1) :: r.1, r.2)

/-- Write the root public keys as blobs named by key id. -/
def writeKeyBlobs : Repo → List Key → List (String × Hash) × Repo
  | repo, [] => ([], repo)
  | repo, k :: rest =>
    let w := writeBlobR repo ⟨none, some k⟩
    let r := writeKeyBlobs w.2 rest
    ((k.keyID, w.1) :: r.1, r.2)

/-- The metadata files of a state, root first, then targets when present,
then the delegation envelopes (the Go map iteration order is arbitrary;
this model fixes one — the order only affects which fresh ids the blobs
receive). -/
def metaEntriesOf (s : State) : List (String × Option Envelope) :=
  (RootRoleName, s.rootEnvelope) ::
    (match s.targetsEnvelope with
     | some t => [(TargetsRoleName, some t)]
     | none => []) ++
    s.delegationEnvelopes.map fun p => (p.1, some p.2)

/-- The object-writing phase of (*State).Commit (source lines 857-929):
serialize every envelope and key into blobs, build the metadata and keys
subtrees and the policy root tree; the root tree id is returned. -/
def writeStateObjects (s : State) (repo : Repo) : Hash × Repo :=
  let m := writeEnvBlobs repo (metaEntriesOf s)
  let mt := writeTreeR m.2 m.1
  let k := writeKeyBlobs mt.2 s.rootPublicKeys
  let kt := writeTreeR k.2 k.1
  writeTreeR kt.2 [("metadata", mt.1), ("keys", kt.1)]

/-- rsl.NewReferenceEntry(...).Commit.  Modelled from the spec: append a
reference-entry commit to the RSL chain and advance the RSL ref; the
returned value is the repository after the append (`none` would be an
append failure, which this implementation never produces). -/
def rslAppendOk (repo : Repo) (refName : String) (target : Hash) : Option Repo :=
  some { repo with
          rsl := repo.rsl ++ [⟨repo.nextID + 1, .reference refName target⟩],
          refs := aupdate repo.refs RSLRef (repo.nextID + 1),
          nextID := repo.nextID + 1 }

/-- (*State).Commit (source lines 848-949): verify the state, write its
objects, read the policy ref's current hash, commit the new policy tree
on the policy ref, then append an RSL reference entry for the policy ref;
if the append fails the policy ref is reset to the hash read before the
commit.  The RSL append is a parameter because it performs external I/O
that may fail; `rslAppendOk` is its normal behaviour.  Go returns only an
error; the new policy commit id is additionally exposed here so the
postcondition can name it. -/
def stateCommit (check : Key → Sig → Bool)
    (rslAppend : Repo → String → Hash → Option Repo)
    (s : State) (repo : Repo) (message : String) : Except Err Hash × Repo :=
  match Verify check s with
  | .error e => (.error e, repo)
  | .ok () =>
    let w := writeStateObjects s repo
    match lookupRef w.2 PolicyRef with
    | none => (.error .refNotFound, w.2)
    | some original =>
      let g := gitCommit w.2 w.1 PolicyRef message
      match rslAppend g.2 PolicyRef g.1 with
      | some repo' => (.ok g.1, repo')
      | none => (.error .rslAppendFailed, setRefRepo g.2 PolicyRef original)

/-- A stateful wrapper around `Verify` exposing the state read back after
the call: the Go method only ever reads the receiver's fields (the
delegation-envelopes map is copied before the walk deletes from it, source
lines 757-760), so the state after the call is built from the same field
values. -/
def VerifyRun (check : Key → Sig → Bool) (s : State) : Except Err Unit × State :=
  (Verify check s,
   { rootEnvelope := s.rootEnvelope,
     targetsEnvelope := s.targetsEnvelope,
     delegationEnvelopes := s.delegationEnvelopes,
     rootPublicKeys := s.rootPublicKeys })

/-- The signature-verification oracle that accepts everything; used by the
concrete witnesses. -/
def checkAll : Key → Sig → Bool := fun _ _ => true

/-- Concrete root key. -/
def kR : Key := ⟨"kr"⟩

/-- Concrete policy (gpg) key. -/
def kG : Key := ⟨"kg"⟩

/-- A signature attributed to the root key. -/
def sigR : Sig := ⟨"kr", "sig-bytes"⟩

/-- Concrete root metadata trusting `kR` for both top-level roles. -/
def rmFix : RootMetadata :=
  ⟨1, [("kr", kR)], [(RootRoleName, ⟨["kr"], 1⟩), (TargetsRoleName, ⟨["kr"], 1⟩)]⟩

/-- Concrete root envelope. -/
def renvFix : Envelope := ⟨some rmFix, none, [sigR]⟩

/-- A state holding only root metadata and the root key. -/
def sOnlyRoot : State := ⟨some renvFix, none, [], [kR]⟩

-- ---------------------------------------------------------------------
-- C3: InitializeNamespace
-- ---------------------------------------------------------------------

/-- C3: on a repository without the policy ref, InitializeNamespace
succeeds and creates refs/gittuf/policy at the zero hash; while the ref
holds the zero hash a second call succeeds and observably changes no
reference; when the ref holds a non-zero hash the call returns the
policy-exists error and leaves the repository untouched. -/
theorem claim_C3 :
    (∀ repo, lookupRef repo PolicyRef = none →
      (initializeNamespace repo).1 = .ok () ∧
      lookupRef (initializeNamespace repo).2 PolicyRef = some 0) ∧
    (∀ repo, lookupRef repo PolicyRef = some 0 →
      (initializeNamespace repo).1 = .ok () ∧
      ∀ name, lookupRef (initializeNamespace repo).2 name = lookupRef repo name) ∧
    (∀ repo h, lookupRef repo PolicyRef = some h → h ≠ 0 →
      initializeNamespace repo = (.error .policyExists, repo)) := by
  refine ⟨?_, ?_, ?_⟩
  · intro repo h
    unfold lookupRef at h
    simp [initializeNamespace, lookupRef, h, setRefRepo, alookup_aupdate_self]
  · intro repo h
    unfold lookupRef at h
    refine ⟨by simp [initializeNamespace, lookupRef, h], ?_⟩
    intro name
    by_cases hn : PolicyRef = name
    · subst hn
      simp [initializeNamespace, lookupRef, h, setRefRepo, alookup_aupdate_self]
    · simp [initializeNamespace, lookupRef, h, setRefRepo,
        alookup_aupdate_ne _ _ _ _ hn]
  · intro repo h hl hnz
    unfold lookupRef at hl
    simp [initializeNamespace, lookupRef, hl, hnz]

/-- Witness for C3 at concrete repositories. -/
theorem claim_C3_witness :
    initializeNamespace ⟨[(PolicyRef, 5)], ⟨[], [], []⟩, [], 10⟩ =
      (.error .policyExists, ⟨[(PolicyRef, 5)], ⟨[], [], []⟩, [], 10⟩) ∧
    lookupRef (initializeNamespace ⟨[], ⟨[], [], []⟩, [], 0⟩).2 PolicyRef = some 0 :=
  ⟨claim_C3.2.2 ⟨[(PolicyRef, 5)], ⟨[], [], []⟩, [], 10⟩ 5 rfl (by decide),
   (claim_C3.1 ⟨[], ⟨[], [], []⟩, [], 0⟩ rfl).2⟩

-- ---------------------------------------------------------------------
-- C8: Verify is pure and idempotent
-- ---------------------------------------------------------------------

/-- C8: Verify leaves the state unchanged — every field read back after
the call is the field it started with — and running it twice returns the
verdict of running it once. -/
theorem claim_C8 :
    ∀ (check : Key → Sig → Bool) (s : State),
      (VerifyRun check s).2 = s ∧
      (VerifyRun check (VerifyRun check s).2).1 = (VerifyRun check s).1 := by
  intro check s
  exact ⟨rfl, rfl⟩

/-- Witness for C8 at a concrete state. -/
theorem claim_C8_witness :
    (VerifyRun checkAll sOnlyRoot).2 = sOnlyRoot ∧
    (VerifyRun checkAll (VerifyRun checkAll sOnlyRoot).2).1 =
      (VerifyRun checkAll sOnlyRoot).1 :=
  claim_C8 checkAll sOnlyRoot

-- ---------------------------------------------------------------------
-- C9: PublicKeys on a state with no targets envelope
-- ---------------------------------------------------------------------

/-- C9: when the targets envelope is nil and the root payload decodes,
PublicKeys returns the nil map and the nil error, dropping the root keys
and root-metadata keys it had already accumulated. -/
theorem claim_C9 :
    ∀ (s : State) (rm : RootMetadata),
      s.targetsEnvelope = none → getRootMetadata s = .ok rm →
      publicKeys s = .ok none := by
  intro s rm ht hr
  simp [publicKeys, hr, ht]

/-- Witness for C9: the root-only state has keys, yet PublicKeys returns
the nil map without an error. -/
theorem claim_C9_witness : publicKeys sOnlyRoot = .ok none :=
  claim_C9 sOnlyRoot rmFix rfl rfl

-- ---------------------------------------------------------------------
-- C10: GetTargetsMetadata, metadataNotFound and the nil dereference
-- ---------------------------------------------------------------------

/-- C10: GetTargetsMetadata yields metadataNotFound exactly for role
names other than "targets" that are absent from the delegation envelopes
map, and for the "targets" role on a state without a targets envelope the
nil dereference is reached instead of any error return. -/
theorem claim_C10 :
    (∀ (s : State) (r : String), r ≠ TargetsRoleName →
      (getTargetsMetadata s r = .error .metadataNotFound ↔
        alookup s.delegationEnvelopes r = none)) ∧
    (∀ (s : State) (r : String),
      getTargetsMetadata s r = .error .metadataNotFound → r ≠ TargetsRoleName) ∧
    (∀ s : State, s.targetsEnvelope = none →
      getTargetsMetadata s TargetsRoleName = .error .nilPanic) := by
  refine ⟨?_, ?_, ?_⟩
  · intro s r hr
    constructor
    · intro h
      rcases hl : alookup s.delegationEnvelopes r with _ | e
      · rfl
      · rcases hp : e.payloadTargets with _ | tm <;>
          simp [getTargetsMetadata, hr, hl, hp] at h
    · intro hl
      simp [getTargetsMetadata, hr, hl]
  · intro s r h hr
    subst hr
    rcases ht : s.targetsEnvelope with _ | e
    · simp [getTargetsMetadata, ht] at h
    · rcases hp : e.payloadTargets with _ | tm <;>
        simp [getTargetsMetadata, ht, hp] at h
  · intro s ht
    simp [getTargetsMetadata, ht]

/-- Witness for C10 at a concrete state with no targets envelope. -/
theorem claim_C10_witness :
    getTargetsMetadata sOnlyRoot TargetsRoleName = .error .nilPanic :=
  claim_C10.2.2 sOnlyRoot rfl

-- ---------------------------------------------------------------------
-- C6: root verification threshold
-- ---------------------------------------------------------------------

theorem verifyEnvelope_ok_all_keys (check : Key → Sig → Bool) (env : Envelope)
    (verifiers : List Key)
    (h : verifyEnvelope check env verifiers verifiers.length = .ok ()) :
    ∀ k ∈ verifiers, env.signatures.any (fun sg => check k sg) = true := by
  unfold verifyEnvelope at h
  by_cases h0 : verifiers.length = 0
  · simp [h0] at h
  · rw [if_neg h0] at h
    set flt := verifiers.filter fun k => env.signatures.any fun sg => check k sg with hflt
    by_cases hle : verifiers.length ≤ ((flt.map Key.keyID).dedup).length
    · have hsub : flt.Sublist verifiers := List.filter_sublist _
      have hlen1 : ((flt.map Key.keyID).dedup).length ≤ (flt.map Key.keyID).length :=
        (List.dedup_sublist _).length_le
      have hlen2 : (flt.map Key.keyID).length = flt.length := List.length_map _ _
      have hge : verifiers.length ≤ flt.length := by omega
      have heq : flt = verifiers := hsub.eq_of_length_le hge
      intro k hk
      have := List.filter_eq_self.mp heq k hk
      simpa using this
    · rw [if_neg hle] at h
      simp at h

theorem verify_root_stage (check : Key → Sig → Bool) (s : State) (renv : Envelope)
    (hre : s.rootEnvelope = some renv) (hok : Verify check s = .ok ()) :
    verifyEnvelope check renv s.rootPublicKeys s.rootPublicKeys.length = .ok () := by
  rcases hv : verifyEnvelope check renv s.rootPublicKeys s.rootPublicKeys.length with e | u
  · simp [Verify, hre, hv] at hok
  · rfl

theorem verify_no_root_keys (check : Key → Sig → Bool) (s : State) (renv : Envelope)
    (hre : s.rootEnvelope = some renv) (hkeys : s.rootPublicKeys = []) :
    Verify check s = .error .invalidThreshold := by
  simp [Verify, hre, hkeys, verifyEnvelope]

/-- C6: Verify envelope-verifies the root envelope with the root public
keys at a threshold equal to their number, so success requires a
verifying signature for every root key; a root envelope without
signatures is rejected, and an empty root-keys list is rejected (zero
threshold). -/
theorem claim_C6 :
    (∀ (check : Key → Sig → Bool) (s : State) (renv : Envelope),
        s.rootEnvelope = some renv → Verify check s = .ok () →
        verifyEnvelope check renv s.rootPublicKeys s.rootPublicKeys.length = .ok () ∧
        ∀ k ∈ s.rootPublicKeys, renv.signatures.any (fun sg => check k sg) = true) ∧
    (∀ (check : Key → Sig → Bool) (s : State) (renv : Envelope),
        s.rootEnvelope = some renv → renv.signatures = [] →
        Verify check s ≠ .ok ()) ∧
    (∀ (check : Key → Sig → Bool) (s : State) (renv : Envelope),
        s.rootEnvelope = some renv → s.rootPublicKeys = [] →
        Verify check s = .error .invalidThreshold) := by
  refine ⟨?_, ?_, ?_⟩
  · intro check s renv hre hok
    have hv := verify_root_stage check s renv hre hok
    exact ⟨hv, verifyEnvelope_ok_all_keys check renv _ hv⟩
  · intro check s renv hre hsig hok
    rcases hkeys : s.rootPublicKeys with _ | ⟨k0, ks⟩
    · have := verify_no_root_keys check s renv hre hkeys
      rw [this] at hok
      exact absurd hok (by simp)
    · have hv := verify_root_stage check s renv hre hok
      have hall := verifyEnvelope_ok_all_keys check renv _ hv
      have := hall k0 (by rw [hkeys]; exact List.mem_cons_self _ _)
      rw [hsig] at this
      simp at this
  · intro check s renv hre hkeys
    exact verify_no_root_keys check s renv hre hkeys

/-- Witness for C6: a state whose root-keys list is empty is rejected. -/
theorem claim_C6_witness :
    Verify checkAll ⟨some renvFix, none, [], []⟩ = .error .invalidThreshold :=
  claim_C6.2.2 checkAll ⟨some renvFix, none, [], []⟩ renvFix rfl rfl

-- ---------------------------------------------------------------------
-- C7: dangling delegation metadata
-- ---------------------------------------------------------------------

/-- C7: under the hypotheses that the root and targets stages of Verify
succeed and the delegation walk runs to completion, the walk's leftover is
exactly the delegation envelopes it never consumed: Verify succeeds only
when the leftover is empty, and a non-empty leftover makes Verify return
the dangling-delegation-metadata error. -/
theorem claim_C7 :
    ∀ (check : Key → Sig → Bool) (s : State) (renv tenv : Envelope)
      (rm : RootMetadata) (tvs : List Key) (tm : TargetsMetadata)
      (dels : Delegations) (leftover : List (String × Envelope)),
      s.rootEnvelope = some renv →
      verifyEnvelope check renv s.rootPublicKeys s.rootPublicKeys.length = .ok () →
      s.targetsEnvelope = some tenv →
      renv.payloadRoot = some rm →
      collectVerifierKeys rm.keys (roleFor rm TargetsRoleName).keyIDs = some tvs →
      verifyEnvelope check tenv tvs (roleFor rm TargetsRoleName).threshold = .ok () →
      s.delegationEnvelopes ≠ [] →
      tenv.payloadTargets = some tm →
      tm.Validate = true →
      tm.delegations = some dels →
      verifyDelegationsAux check dels.keys dels.roles s.delegationEnvelopes = .ok leftover →
      ((Verify check s = .ok () → leftover = []) ∧
       (leftover ≠ [] → Verify check s = .error .danglingDelegationMetadata)) := by
  intro check s renv tenv rm tvs tm dels leftover hre hrv hte hrm hcv htv hdne hpt hval hdls haux
  have hie : s.delegationEnvelopes.isEmpty = false := by
    rcases hd : s.delegationEnvelopes with _ | ⟨p, rest⟩
    · exact absurd hd hdne
    · rfl
  have hver : Verify check s =
      (if leftover.isEmpty then Except.ok () else .error .danglingDelegationMetadata) := by
    simp [Verify, hre, hrv, hte, hrm, hcv, htv, hie, hpt, hval, hdls, haux]
  constructor
  · intro hok
    rw [hver] at hok
    by_cases hl : leftover.isEmpty
    · rcases leftover with _ | ⟨q, rest⟩
      · rfl
      · simp at hl
    · rw [if_neg hl] at hok
      simp at hok
  · intro hl
    have hfalse : leftover.isEmpty = false := by
      rcases leftover with _ | ⟨q, rest⟩
      · exact absurd rfl hl
      · rfl
    rw [hver, hfalse]
    simp

/-- Top-level targets metadata with no delegation roles. -/
def tmOrphan : TargetsMetadata := ⟨1, some ⟨[], []⟩⟩

/-- Targets envelope for the orphan fixture. -/
def tenvOrphan : Envelope := ⟨none, some tmOrphan, [sigR]⟩

/-- An envelope no delegation ever names. -/
def envO : Envelope := ⟨none, none, []⟩

/-- A state holding a delegation envelope unreachable from the targets
metadata. -/
def sOrphan : State := ⟨some renvFix, some tenvOrphan, [("orphan", envO)], [kR]⟩

/-- Witness for C7: the orphan envelope is never consumed, so Verify
reports dangling delegation metadata. -/
theorem claim_C7_witness :
    Verify checkAll sOrphan = .error .danglingDelegationMetadata :=
  (claim_C7 checkAll sOrphan renvFix tenvOrphan rmFix [kR] tmOrphan ⟨[], []⟩
      [("orphan", envO)] rfl rfl rfl rfl rfl rfl (by simp [sOrphan]) rfl rfl rfl
      (by simp [verifyDelegationsAux, sOrphan])).2 (by simp)

-- ---------------------------------------------------------------------
-- C2: GetStateForCommit, first-seen semantics
-- ---------------------------------------------------------------------

theorem takeWhile_append_of_exists {α : Type} (p : α → Bool) :
    ∀ (l l' : List α), (∃ x ∈ l, p x = false) →
      (l ++ l').takeWhile p = l.takeWhile p := by
  intro l
  induction l with
  | nil =>
    intro l' h
    rcases h with ⟨x, hx, _⟩
    simp at hx
  | cons a rest ih =>
    intro l' h
    by_cases hp : p a
    · simp only [List.cons_append, List.takeWhile_cons, hp]
      rw [ih]
      rcases h with ⟨x, hx, hpx⟩
      rcases List.mem_cons.mp hx with h1 | h2
      · subst h1
        rw [hp] at hpx
        exact absurd hpx (by simp)
      · exact ⟨x, h2, hpx⟩
    · have hpf : p a = false := by
        rcases hb : p a with _ | _
        · rfl
        · exact absurd hb hp
      simp [List.takeWhile_cons, hpf]

/-- C2: GetStateForCommit loads the state of the latest policy-ref entry
strictly preceding the first RSL entry recording the commit; appending
further RSL entries (for example one recording the same commit again
after a merge) does not change the result once the commit is recorded;
and a commit never recorded yields no state together with no error. -/
theorem claim_C2 :
    (∀ (check : Key → Sig → Bool) (knows : Hash → Hash → Bool) (repo : Repo)
        (commit : Hash) (fs pe : LogEntry),
      getFirstReferenceEntryForCommit knows repo.rsl commit = .ok fs →
      getLatestReferenceEntryForRefBefore repo.rsl PolicyRef fs.id = .ok pe →
      GetStateForCommit check knows repo commit =
        (loadStateForEntry check repo.objs pe.entry).map (fun st => some st)) ∧
    (∀ (check : Key → Sig → Bool) (knows : Hash → Hash → Bool) (repo : Repo)
        (extra : List LogEntry) (commit : Hash),
      repo.rsl.any (refEntryKnows knows commit) = true →
      GetStateForCommit check knows { repo with rsl := repo.rsl ++ extra } commit =
        GetStateForCommit check knows repo commit) ∧
    (∀ (check : Key → Sig → Bool) (knows : Hash → Hash → Bool) (repo : Repo)
        (commit : Hash),
      (∀ le ∈ repo.rsl, refEntryKnows knows commit le = false) →
      GetStateForCommit check knows repo commit = .ok none) := by
  refine ⟨?_, ?_, ?_⟩
  · intro check knows repo commit fs pe h1 h2
    rcases hload : loadStateForEntry check repo.objs pe.entry with e | st <;>
      simp [GetStateForCommit, h1, h2, hload, Except.map]
  · intro check knows repo extra commit hany
    rcases hfind : repo.rsl.find? (refEntryKnows knows commit) with _ | fs
    · rcases List.any_eq_true.mp hany with ⟨x, hx, hpx⟩
      exact absurd hpx (by simpa using List.find?_eq_none.mp hfind x hx)
    · have hfind2 : (repo.rsl ++ extra).find? (refEntryKnows knows commit) = some fs := by
        rw [List.find?_append, hfind]
        rfl
      have hmem : fs ∈ repo.rsl := List.mem_of_find?_eq_some hfind
      have htake : (repo.rsl ++ extra).takeWhile (fun le => le.id ≠ fs.id) =
          repo.rsl.takeWhile (fun le => le.id ≠ fs.id) := by
        apply takeWhile_append_of_exists
        exact ⟨fs, hmem, by simp⟩
      simp only [GetStateForCommit, getFirstReferenceEntryForCommit,
        getLatestReferenceEntryForRefBefore, hfind, hfind2, htake]
  · intro check knows repo commit hall
    have hfind : repo.rsl.find? (refEntryKnows knows commit) = none :=
      List.find?_eq_none.mpr fun x hx => by simp [hall x hx]
    simp [GetStateForCommit, getFirstReferenceEntryForCommit, hfind]

/-- Witness for C2: a commit absent from the RSL produces no state and no
error. -/
theorem claim_C2_witness :
    GetStateForCommit checkAll (fun _ _ => false)
      ⟨[], ⟨[], [], []⟩, [⟨1, .reference "refs/heads/main" 5⟩], 10⟩ 7 = .ok none :=
  claim_C2.2.2 checkAll (fun _ _ => false)
    ⟨[], ⟨[], [], []⟩, [⟨1, .reference "refs/heads/main" 5⟩], 10⟩ 7 (by decide)

-- ---------------------------------------------------------------------
-- C5: the policy tree shape check of LoadStateForEntry
-- ---------------------------------------------------------------------

theorem scanPolicyTree_bad : ∀ (entries : List (String × Hash)) (m k : Hash),
    (∃ p ∈ entries, p.1 ≠ "metadata" ∧ p.1 ≠ "keys") →
    scanPolicyTree entries m k = none := by
  intro entries
  induction entries with
  | nil =>
    intro m k h
    rcases h with ⟨p, hp, _⟩
    simp at hp
  | cons a rest ih =>
    intro m k h
    obtain ⟨n, hsh⟩ := a
    rcases h with ⟨p, hp, hbad⟩
    rcases List.mem_cons.mp hp with h1 | h2
    · have hm : n ≠ "metadata" := by
        have := hbad.1
        rw [h1] at this
        simpa using this
      have hk : n ≠ "keys" := by
        have := hbad.2
        rw [h1] at this
        simpa using this
      simp [scanPolicyTree, hm, hk]
    · by_cases hn1 : n = "metadata"
      · simp only [scanPolicyTree, hn1, if_pos rfl]
        exact ih _ _ ⟨p, h2, hbad⟩
      · by_cases hn2 : n = "keys"
        · simp only [scanPolicyTree, if_neg hn1, hn2, if_pos rfl]
          exact ih _ _ ⟨p, h2, hbad⟩
        · simp [scanPolicyTree, hn1, hn2]

/-- C5 (amended): LoadStateForEntry returns invalidPolicyTree when the
policy commit's root tree has more than two entries or contains an entry
named other than "metadata"/"keys"; and a successfully loaded state can
only come from a root tree holding exactly one "metadata" and one "keys"
entry, both naming stored trees.  (A tree merely missing one of the two
subtrees escapes the shape check and fails later with an object-lookup
error instead — see the counterexample.) -/
theorem claim_C5 :
    (∀ (check : Key → Sig → Bool) (os : ObjStore) (tid : Hash) (pc : CommitObj)
        (rootTree : List (String × Hash)),
      alookup os.commits tid = some pc →
      alookup os.trees pc.treeHash = some rootTree →
      2 < rootTree.length →
      loadStateForEntry check os (.reference PolicyRef tid) = .error .invalidPolicyTree) ∧
    (∀ (check : Key → Sig → Bool) (os : ObjStore) (tid : Hash) (pc : CommitObj)
        (rootTree : List (String × Hash)),
      alookup os.commits tid = some pc →
      alookup os.trees pc.treeHash = some rootTree →
      rootTree.length ≤ 2 →
      (∃ p ∈ rootTree, p.1 ≠ "metadata" ∧ p.1 ≠ "keys") →
      loadStateForEntry check os (.reference PolicyRef tid) = .error .invalidPolicyTree) ∧
    (∀ (check : Key → Sig → Bool) (os : ObjStore) (tid : Hash) (st : State),
      alookup os.trees 0 = none →
      loadStateForEntry check os (.reference PolicyRef tid) = .ok st →
      ∃ (pc : CommitObj) (rootTree : List (String × Hash)) (mh kh : Hash)
        (mt kt : List (String × Hash)),
        alookup os.commits tid = some pc ∧
        alookup os.trees pc.treeHash = some rootTree ∧
        alookup os.trees mh = some mt ∧
        alookup os.trees kh = some kt ∧
        (rootTree = [("metadata", mh), ("keys", kh)] ∨
         rootTree = [("keys", kh), ("metadata", mh)])) := by
  refine ⟨?_, ?_, ?_⟩
  · intro check os tid pc rootTree hc ht hlen
    simp [loadStateForEntry, hc, ht, hlen]
  · intro check os tid pc rootTree hc ht hlen hex
    simp [loadStateForEntry, hc, ht, Nat.not_lt.mpr hlen,
      scanPolicyTree_bad rootTree 0 0 hex]
  · intro check os tid st h0 hok
    simp only [loadStateForEntry] at hok
    rw [if_neg (by simp)] at hok
    split at hok
    · exact Except.noConfusion hok
    next pc hc =>
      split at hok
      · exact Except.noConfusion hok
      next rootTree ht =>
        split at hok
        · exact Except.noConfusion hok
        next hlen =>
          split at hok
          · exact Except.noConfusion hok
          next mID kID hscan =>
            split at hok
            · exact Except.noConfusion hok
            next mTree hm =>
              split at hok
              · exact Except.noConfusion hok
              next kTree hk =>
                have hm0 : mID ≠ 0 := by
                  intro h
                  rw [h, h0] at hm
                  exact Option.noConfusion hm
                have hk0 : kID ≠ 0 := by
                  intro h
                  rw [h, h0] at hk
                  exact Option.noConfusion hk
                have hlen2 : rootTree.length ≤ 2 := Nat.not_lt.mp hlen
                refine ⟨pc, rootTree, mID, kID, mTree, kTree, hc, ht, hm, hk, ?_⟩
                rcases rootTree with _ | ⟨⟨n1, h1⟩, _ | ⟨⟨n2, h2⟩, rest⟩⟩
                · simp only [scanPolicyTree] at hscan
                  injection hscan with hpair
                  injection hpair with e1 e2
                  exact absurd e1.symm hm0
                · simp only [scanPolicyTree] at hscan
                  by_cases hn1 : n1 = "metadata"
                  · rw [if_pos hn1] at hscan
                    injection hscan with hpair
                    injection hpair with e1 e2
                    exact absurd e2.symm hk0
                  · by_cases hn2 : n1 = "keys"
                    · rw [if_neg hn1, if_pos hn2] at hscan
                      injection hscan with hpair
                      injection hpair with e1 e2
                      exact absurd e1.symm hm0
                    · rw [if_neg hn1, if_neg hn2] at hscan
                      exact Option.noConfusion hscan
                · have hrest : rest = [] := by
                    rcases rest with _ | ⟨r, rs⟩
                    · rfl
                    · simp at hlen2
                  subst hrest
                  simp only [scanPolicyTree] at hscan
                  by_cases hn1 : n1 = "metadata"
                  · rw [if_pos hn1] at hscan
                    by_cases hn2 : n2 = "metadata"
                    · rw [if_pos hn2] at hscan
                      injection hscan with hpair
                      injection hpair with e1 e2
                      exact absurd e2.symm hk0
                    · by_cases hn2k : n2 = "keys"
                      · rw [if_neg hn2, if_pos hn2k] at hscan
                        injection hscan with hpair
                        injection hpair with e1 e2
                        subst e1
                        subst e2
                        subst hn1
                        subst hn2k
                        left
                        rfl
                      · rw [if_neg hn2, if_neg hn2k] at hscan
                        exact Option.noConfusion hscan
                  · by_cases hn1k : n1 = "keys"
                    · rw [if_neg hn1, if_pos hn1k] at hscan
                      by_cases hn2 : n2 = "metadata"
                      · rw [if_pos hn2] at hscan
                        injection hscan with hpair
                        injection hpair with e1 e2
                        subst e1
                        subst e2
                        subst hn1k
                        subst hn2
                        right
                        rfl
                      · by_cases hn2k : n2 = "keys"
                        · rw [if_neg hn2, if_pos hn2k] at hscan
                          injection hscan with hpair
                          injection hpair with e1 e2
                          exact absurd e1.symm hm0
                        · rw [if_neg hn2, if_neg hn2k] at hscan
                          exact Option.noConfusion hscan
                    · rw [if_neg hn1, if_neg hn1k] at hscan
                      exact Option.noConfusion hscan

/-- Object store for the counterexample: the policy commit's tree has the
single entry "keys", a shape other than the required pair of subtrees. -/
def osC5 : ObjStore := ⟨[(1, [("keys", 99)])], [], [(5, ⟨1, [], "policy"⟩)]⟩

/-- Counterexample for C5 as stated: a root tree with only a "keys" entry
is not the required shape, yet LoadStateForEntry fails with the
object-lookup error, not with invalidPolicyTree. -/
theorem claim_C5_counterexample :
    loadStateForEntry checkAll osC5 (.reference PolicyRef 5) = .error .objectNotFound ∧
    Err.objectNotFound ≠ Err.invalidPolicyTree :=
  ⟨rfl, by decide⟩

/-- Object store whose policy commit has a three-entry root tree. -/
def osC5w : ObjStore :=
  ⟨[(1, [("metadata", 2), ("keys", 3), ("extra", 4)])], [], [(5, ⟨1, [], "policy"⟩)]⟩

/-- Witness for the amended C5: a three-entry root tree is rejected with
invalidPolicyTree. -/
theorem claim_C5_witness :
    loadStateForEntry checkAll osC5w (.reference PolicyRef 5) = .error .invalidPolicyTree :=
  claim_C5.1 checkAll osC5w 5 ⟨1, [], "policy"⟩
    [("metadata", 2), ("keys", 3), ("extra", 4)] rfl rfl (by decide)

-- ---------------------------------------------------------------------
-- C4: State.Commit and the policy-ref reset on RSL failure
-- ---------------------------------------------------------------------

theorem refNames_ne : RSLRef ≠ PolicyRef := by decide

theorem writeEnvBlobs_pres : ∀ (l : List (String × Option Envelope)) (repo : Repo),
    (writeEnvBlobs repo l).2.refs = repo.refs ∧ (writeEnvBlobs repo l).2.rsl = repo.rsl := by
  intro l
  induction l with
  | nil => intro repo; exact ⟨rfl, rfl⟩
  | cons p rest ih =>
    intro repo
    obtain ⟨n, e⟩ := p
    have h := ih (writeBlobR repo ⟨e, none⟩).2
    exact ⟨h.1, h.2⟩

theorem writeKeyBlobs_pres : ∀ (l : List Key) (repo : Repo),
    (writeKeyBlobs repo l).2.refs = repo.refs ∧ (writeKeyBlobs repo l).2.rsl = repo.rsl := by
  intro l
  induction l with
  | nil => intro repo; exact ⟨rfl, rfl⟩
  | cons k rest ih =>
    intro repo
    have h := ih (writeBlobR repo ⟨none, some k⟩).2
    exact ⟨h.1, h.2⟩

theorem writeStateObjects_pres (s : State) (repo : Repo) :
    (writeStateObjects s repo).2.refs = repo.refs ∧
    (writeStateObjects s repo).2.rsl = repo.rsl := by
  have h1 := writeEnvBlobs_pres (metaEntriesOf s) repo
  have h2 := writeKeyBlobs_pres s.rootPublicKeys
    (writeTreeR (writeEnvBlobs repo (metaEntriesOf s)).2
      (writeEnvBlobs repo (metaEntriesOf s)).1).2
  exact ⟨h2.1.trans h1.1, h2.2.trans h1.2⟩

/-- C4: a successful State.Commit leaves the policy ref pointing at the
new policy commit and the RSL head a reference entry for the policy ref
targeting that commit; when the RSL append fails, the policy ref is reset
to the hash it held before the call. -/
theorem claim_C4 :
    (∀ (check : Key → Sig → Bool) (s : State) (repo : Repo) (msg : String) (cid : Hash),
      (stateCommit check rslAppendOk s repo msg).1 = .ok cid →
      lookupRef (stateCommit check rslAppendOk s repo msg).2 PolicyRef = some cid ∧
      ((stateCommit check rslAppendOk s repo msg).2.rsl.getLast?).map LogEntry.entry =
        some (.reference PolicyRef cid)) ∧
    (∀ (check : Key → Sig → Bool) (rslAppend : Repo → String → Hash → Option Repo)
        (s : State) (repo : Repo) (msg : String),
      (stateCommit check rslAppend s repo msg).1 = .error .rslAppendFailed →
      lookupRef (stateCommit check rslAppend s repo msg).2 PolicyRef =
        lookupRef repo PolicyRef) := by
  constructor
  · intro check s repo msg cid h
    rcases hv : Verify check s with e | u
    · rw [stateCommit, hv] at h
      exact Except.noConfusion h
    · obtain ⟨⟩ := u
      rcases hl : lookupRef (writeStateObjects s repo).2 PolicyRef with _ | orig
      · rw [stateCommit, hv] at h
        simp only [hl] at h
        exact Except.noConfusion h
      · rw [stateCommit, hv] at h ⊢
        simp only [hl, rslAppendOk] at h ⊢
        have hcid :
            (gitCommit (writeStateObjects s repo).2 (writeStateObjects s repo).1
              PolicyRef msg).1 = cid := by
          injection h
        constructor
        · rw [lookupRef]
          simp only []
          rw [alookup_aupdate_ne _ _ _ _ refNames_ne]
          rw [← hcid, gitCommit, hl]
          simp only [setRefRepo]
          exact alookup_aupdate_self _ _ _
        · rw [List.getLast?_concat]
          simp [hcid]
  · intro check rslAppend s repo msg h
    rcases hv : Verify check s with e | u
    · rw [stateCommit, hv] at h ⊢
    · obtain ⟨⟩ := u
      rcases hl : lookupRef (writeStateObjects s repo).2 PolicyRef with _ | orig
      · rw [stateCommit, hv] at h
        simp only [hl] at h
        simp at h
      · rcases ha : rslAppend
            (gitCommit (writeStateObjects s repo).2 (writeStateObjects s repo).1
              PolicyRef msg).2 PolicyRef
            (gitCommit (writeStateObjects s repo).2 (writeStateObjects s repo).1
              PolicyRef msg).1 with _ | repo2
        · rw [stateCommit, hv] at h ⊢
          simp only [hl, ha] at h ⊢
          rw [lookupRef, setRefRepo]
          simp only []
          rw [alookup_aupdate_self]
          rw [lookupRef] at hl
          rw [(writeStateObjects_pres s repo).1] at hl
          rw [lookupRef, hl]
        · rw [stateCommit, hv] at h
          simp only [hl, ha] at h
          exact Except.noConfusion h

/-- Repository fixture for the C4 witness: both gittuf refs initialized at
the zero hash. -/
def repoC4 : Repo := ⟨[(PolicyRef, 0), (RSLRef, 0)], ⟨[], [], []⟩, [], 10⟩

/-- Witness for C4: a concrete successful commit moves the policy ref and
appends the matching RSL entry; a concrete failing append leaves the
policy ref where it was. -/
theorem claim_C4_witness :
    (lookupRef (stateCommit checkAll rslAppendOk sOnlyRoot repoC4 "m").2 PolicyRef =
        some 16 ∧
      ((stateCommit checkAll rslAppendOk sOnlyRoot repoC4 "m").2.rsl.getLast?).map
          LogEntry.entry = some (.reference PolicyRef 16)) ∧
    lookupRef (stateCommit checkAll (fun _ _ _ => none) sOnlyRoot repoC4 "m").2
        PolicyRef = lookupRef repoC4 PolicyRef :=
  ⟨claim_C4.1 checkAll sOnlyRoot repoC4 "m" 16 rfl,
   claim_C4.2 checkAll (fun _ _ _ => none) sOnlyRoot repoC4 "m" rfl⟩

-- ---------------------------------------------------------------------
-- C1: FindPublicKeysForPath
-- ---------------------------------------------------------------------

/-- The reserved trailing allow-rule delegation. -/
def allowRule : Delegation := ⟨"allow-rule", [], 1, ["*"], false⟩

/-- The "main" delegation of the test scenario, protecting the main
branch with a single key id. -/
def mainDel (kid : String) : Delegation :=
  ⟨"main", [kid], 1, ["git:refs/heads/main"], false⟩

theorem fpkLoop_zero (s : State) (path : String) (allKeys : List (String × Key))
    (queue : List Delegation) (trusted : List (Option Key)) :
    fpkLoop s path 0 allKeys queue trusted = none := rfl

theorem fpkLoop_ret (s : State) (path : String) (fuel : Nat)
    (allKeys : List (String × Key)) (queue : List Delegation)
    (trusted : List (Option Key)) (h : queue.length ≤ 1) :
    fpkLoop s path (Nat.succ fuel) allKeys queue trusted = some (.ok trusted) := by
  simp only [fpkLoop]
  rw [if_pos h]

theorem fpkLoop_skip (s : State) (path : String) (fuel : Nat)
    (allKeys : List (String × Key)) (d : Delegation) (rest : List Delegation)
    (trusted : List (Option Key)) (hlen : ¬(d :: rest).length ≤ 1)
    (hm : d.matchesPath path = false) :
    fpkLoop s path (Nat.succ fuel) allKeys (d :: rest) trusted =
      fpkLoop s path fuel allKeys rest trusted := by
  simp only [fpkLoop]
  rw [if_neg hlen]
  simp [hm]

theorem fpkLoop_norole (s : State) (path : String) (fuel : Nat)
    (allKeys : List (String × Key)) (d : Delegation) (rest : List Delegation)
    (trusted : List (Option Key)) (hlen : ¬(d :: rest).length ≤ 1)
    (hm : d.matchesPath path = true) (hr : hasTargetsRole s d.name = false) :
    fpkLoop s path (Nat.succ fuel) allKeys (d :: rest) trusted =
      fpkLoop s path fuel allKeys rest
        (trusted ++ d.keyIDs.map fun kid => alookup allKeys kid) := by
  simp only [fpkLoop]
  rw [if_neg hlen]
  simp [hm, hr]

theorem fpkLoop_role_err (s : State) (path : String) (fuel : Nat)
    (allKeys : List (String × Key)) (d : Delegation) (rest : List Delegation)
    (trusted : List (Option Key)) (e : Err) (hlen : ¬(d :: rest).length ≤ 1)
    (hm : d.matchesPath path = true) (hr : hasTargetsRole s d.name = true)
    (hmd : getTargetsMetadata s d.name = .error e) :
    fpkLoop s path (Nat.succ fuel) allKeys (d :: rest) trusted = some (.error e) := by
  simp only [fpkLoop]
  rw [if_neg hlen]
  simp [hm, hr, hmd]

theorem fpkLoop_role_nil (s : State) (path : String) (fuel : Nat)
    (allKeys : List (String × Key)) (d : Delegation) (rest : List Delegation)
    (trusted : List (Option Key)) (dm : TargetsMetadata)
    (hlen : ¬(d :: rest).length ≤ 1)
    (hm : d.matchesPath path = true) (hr : hasTargetsRole s d.name = true)
    (hmd : getTargetsMetadata s d.name = .ok dm) (hdl : dm.delegations = none) :
    fpkLoop s path (Nat.succ fuel) allKeys (d :: rest) trusted =
      some (.error .nilPanic) := by
  simp only [fpkLoop]
  rw [if_neg hlen]
  simp [hm, hr, hmd, hdl]

theorem fpkLoop_role (s : State) (path : String) (fuel : Nat)
    (allKeys : List (String × Key)) (d : Delegation) (rest : List Delegation)
    (trusted : List (Option Key)) (dm : TargetsMetadata) (dls : Delegations)
    (hlen : ¬(d :: rest).length ≤ 1)
    (hm : d.matchesPath path = true) (hr : hasTargetsRole s d.name = true)
    (hmd : getTargetsMetadata s d.name = .ok dm) (hdl : dm.delegations = some dls) :
    fpkLoop s path (Nat.succ fuel) allKeys (d :: rest) trusted =
      (if d.terminating then
        fpkLoop s path fuel (mergeKeys allKeys dls.keys) dls.roles
          (trusted ++ d.keyIDs.map fun kid => alookup allKeys kid)
      else if dls.roles.isEmpty then some (.error .sliceBoundsPanic)
      else
        fpkLoop s path fuel (mergeKeys allKeys dls.keys) (dls.roles.dropLast ++ rest)
          (trusted ++ d.keyIDs.map fun kid => alookup allKeys kid)) := by
  simp only [fpkLoop]
  rw [if_neg hlen]
  simp [hm, hr, hmd, hdl]

/-- The final queue slot — where the reserved allow-rule entry sits — can
never influence the loop: the loop returns as soon as at most one entry
remains, a terminating match replaces the queue wholesale, and a
non-terminating match keeps the final slot final. -/
theorem fpkLoop_last_irrelevant :
    ∀ (fuel : Nat) (s : State) (path : String) (allKeys : List (String × Key))
      (q : List Delegation) (trusted : List (Option Key)) (d d' : Delegation),
      fpkLoop s path fuel allKeys (q ++ [d]) trusted =
        fpkLoop s path fuel allKeys (q ++ [d']) trusted := by
  intro fuel
  induction fuel with
  | zero => intro s path allKeys q trusted d d'; rfl
  | succ fuel ih =>
    intro s path allKeys q trusted d d'
    rcases q with _ | ⟨x, q2⟩
    · rw [fpkLoop_ret _ _ _ _ _ _ (by simp), fpkLoop_ret _ _ _ _ _ _ (by simp)]
    · have hlen1 : ¬(x :: (q2 ++ [d])).length ≤ 1 := by simp
      have hlen2 : ¬(x :: (q2 ++ [d'])).length ≤ 1 := by simp
      rcases hm : x.matchesPath path with _ | _
      · rw [List.cons_append, fpkLoop_skip _ _ _ _ _ _ _ hlen1 hm,
          List.cons_append, fpkLoop_skip _ _ _ _ _ _ _ hlen2 hm]
        exact ih s path allKeys q2 trusted d d'
      · rcases hr : hasTargetsRole s x.name with _ | _
        · rw [List.cons_append, fpkLoop_norole _ _ _ _ _ _ _ hlen1 hm hr,
            List.cons_append, fpkLoop_norole _ _ _ _ _ _ _ hlen2 hm hr]
          exact ih s path allKeys q2 _ d d'
        · rcases hmd : getTargetsMetadata s x.name with e | dm
          · rw [List.cons_append, fpkLoop_role_err _ _ _ _ _ _ _ _ hlen1 hm hr hmd,
              List.cons_append, fpkLoop_role_err _ _ _ _ _ _ _ _ hlen2 hm hr hmd]
          · rcases hdl : dm.delegations with _ | dls
            · rw [List.cons_append, fpkLoop_role_nil _ _ _ _ _ _ _ _ hlen1 hm hr hmd hdl,
                List.cons_append, fpkLoop_role_nil _ _ _ _ _ _ _ _ hlen2 hm hr hmd hdl]
            · rw [List.cons_append, fpkLoop_role _ _ _ _ _ _ _ _ _ hlen1 hm hr hmd hdl,
                List.cons_append, fpkLoop_role _ _ _ _ _ _ _ _ _ hlen2 hm hr hmd hdl]
              rcases x.terminating with _ | _
              · simp only [Bool.false_eq_true, if_neg]
                rcases hemp : dls.roles.isEmpty with _ | _
                · simp only [Bool.false_eq_true, if_neg]
                  rw [← List.append_assoc, ← List.append_assoc]
                  exact ih s path _ _ _ d d'
                · simp only [if_pos]
              · simp only [if_pos]

/-- C1: on a verified state whose top-level targets delegations are
exactly the "main" rule (paths ["git:refs/heads/main"], key ids [kid])
followed by the reserved allow-rule, with kid bound to the key Kg and no
delegation envelope named "main", FindPublicKeysForPath returns [Kg] for
"git:refs/heads/main" and [] for "git:refs/heads/unprotected" (entries
are Option Key because Go appends the raw map lookup); the final
allow-rule queue slot never contributes to the result; and one step of
the loop on a matching delegation with an envelope replaces the queue by
the child roles (pruning all siblings) when terminating, while a
non-terminating one puts the child roles minus their trailing allow-rule
ahead of the remaining siblings when the child roles list is non-empty —
an empty child roles list instead reaches the slice-bounds crash of
Roles[:len(Roles)-1], so the claimed depth-first continuation fails
there (see the counterexample). -/
theorem claim_C1 :
    (∀ (check : Key → Sig → Bool) (s : State) (ver : Nat) (kid : String) (kg : Key)
        (keysMap : List (String × Key)),
      Verify check s = .ok () →
      getTargetsMetadata s TargetsRoleName =
        .ok ⟨ver, some ⟨keysMap, [mainDel kid, allowRule]⟩⟩ →
      alookup keysMap kid = some kg →
      hasTargetsRole s "main" = false →
      (∀ fuel, FindPublicKeysForPath check (fuel + 2) s "git:refs/heads/main" =
        some (.ok [some kg])) ∧
      (∀ fuel, FindPublicKeysForPath check (fuel + 2) s "git:refs/heads/unprotected" =
        some (.ok []))) ∧
    (∀ (fuel : Nat) (s : State) (path : String) (allKeys : List (String × Key))
        (q : List Delegation) (trusted : List (Option Key)) (d d' : Delegation),
      fpkLoop s path fuel allKeys (q ++ [d]) trusted =
        fpkLoop s path fuel allKeys (q ++ [d']) trusted) ∧
    (∀ (s : State) (path : String) (fuel : Nat) (allKeys : List (String × Key))
        (d : Delegation) (rest : List Delegation) (trusted : List (Option Key))
        (dm : TargetsMetadata) (dls : Delegations),
      rest ≠ [] →
      d.matchesPath path = true →
      hasTargetsRole s d.name = true →
      getTargetsMetadata s d.name = .ok dm →
      dm.delegations = some dls →
      fpkLoop s path (Nat.succ fuel) allKeys (d :: rest) trusted =
        (if d.terminating then
          fpkLoop s path fuel (mergeKeys allKeys dls.keys) dls.roles
            (trusted ++ d.keyIDs.map fun kid => alookup allKeys kid)
        else if dls.roles.isEmpty then some (.error .sliceBoundsPanic)
        else
          fpkLoop s path fuel (mergeKeys allKeys dls.keys)
            (dls.roles.dropLast ++ rest)
            (trusted ++ d.keyIDs.map fun kid => alookup allKeys kid))) := by
  refine ⟨?_, fpkLoop_last_irrelevant, ?_⟩
  · intro check s ver kid kg keysMap hv htm hkg hnr
    constructor
    · intro fuel
      rw [show fuel + 2 = Nat.succ (Nat.succ fuel) from rfl]
      simp only [FindPublicKeysForPath, hv, htm]
      rw [fpkLoop_norole _ _ _ _ _ _ _ (by simp)
          (by rfl) (by simpa [mainDel] using hnr)]
      rw [fpkLoop_ret _ _ _ _ _ _ (by simp)]
      simp [mainDel, hkg]
    · intro fuel
      rw [show fuel + 2 = Nat.succ (Nat.succ fuel) from rfl]
      simp only [FindPublicKeysForPath, hv, htm]
      rw [fpkLoop_skip _ _ _ _ _ _ _ (by simp) (by rfl)]
      rw [fpkLoop_ret _ _ _ _ _ _ (by simp)]
  · intro s path fuel allKeys d rest trusted dm dls hrest hm hr hmd hdl
    have hlen : ¬(d :: rest).length ≤ 1 := by
      rcases rest with _ | ⟨r, rs⟩
      · exact absurd rfl hrest
      · simp
    exact fpkLoop_role s path fuel allKeys d rest trusted dm dls hlen hm hr hmd hdl

/-- Concrete top-level targets metadata of the scenario: the "main" rule
bound to the key kG, followed by the allow-rule. -/
def tmC1 : TargetsMetadata := ⟨1, some ⟨[("kg", kG)], [mainDel "kg", allowRule]⟩⟩

/-- Targets envelope for the C1 witness. -/
def tenvC1 : Envelope := ⟨none, some tmC1, [sigR]⟩

/-- The verified policy state of the C1 witness. -/
def sC1 : State := ⟨some renvFix, some tenvC1, [], [kR]⟩

/-- Witness for C1 at the concrete scenario state. -/
theorem claim_C1_witness :
    FindPublicKeysForPath checkAll 5 sC1 "git:refs/heads/main" = some (.ok [some kG]) ∧
    FindPublicKeysForPath checkAll 5 sC1 "git:refs/heads/unprotected" = some (.ok []) :=
  ⟨(claim_C1.1 checkAll sC1 1 "kg" kG [("kg", kG)] rfl rfl rfl rfl).1 3,
   (claim_C1.1 checkAll sC1 1 "kg" kG [("kg", kG)] rfl rfl rfl rfl).2 3⟩

theorem verifyDelegationsAux_nil (check : Key → Sig → Bool)
    (dkeys : List (String × Key)) (envs : List (String × Envelope)) :
    verifyDelegationsAux check dkeys [] envs = .ok envs := by
  simp [verifyDelegationsAux]

theorem verifyDelegationsAux_skip (check : Key → Sig → Bool)
    (dkeys : List (String × Key)) (d : Delegation) (rest : List Delegation)
    (envs : List (String × Envelope)) (h : lookupRemove d.name envs = none) :
    verifyDelegationsAux check dkeys (d :: rest) envs =
      verifyDelegationsAux check dkeys rest envs := by
  simp only [verifyDelegationsAux]
  split
  · rfl
  · next denv envs' heq =>
    rw [h] at heq
    exact Option.noConfusion heq

theorem verifyDelegationsAux_consume (check : Key → Sig → Bool)
    (dkeys : List (String × Key)) (d : Delegation) (rest : List Delegation)
    (envs : List (String × Envelope)) (denv : Envelope)
    (envs' : List (String × Envelope)) (vs : List Key) (dm : TargetsMetadata)
    (dls : Delegations)
    (hlr : lookupRemove d.name envs = some (denv, envs'))
    (hcv : collectVerifierKeys dkeys d.keyIDs = some vs)
    (hve : verifyEnvelope check denv vs d.threshold = .ok ())
    (hpt : denv.payloadTargets = some dm)
    (hval : dm.Validate = true)
    (hdl : dm.delegations = some dls) :
    verifyDelegationsAux check dkeys (d :: rest) envs =
      verifyDelegationsAux check (mergeKeys dkeys dls.keys) (rest ++ dls.roles)
        envs' := by
  simp only [verifyDelegationsAux]
  split
  · next heq =>
    rw [hlr] at heq
    exact Option.noConfusion heq
  · next denv2 envs2 heq =>
    rw [hlr] at heq
    injection heq with hp
    injection hp with h1 h2
    subst h1
    subst h2
    simp only [hcv, hve, hpt, hval, if_true, hdl]

/-- A matching non-terminating delegation whose envelope declares an
empty child roles list. -/
def subDelC : Delegation := ⟨"sub", ["kr"], 1, ["git:refs/heads/main"], false⟩

/-- Leaf targets metadata whose delegations block is present but lists no
roles. -/
def emptyChildTm : TargetsMetadata := ⟨1, some ⟨[], []⟩⟩

/-- Envelope of the "sub" delegation. -/
def subEnvC : Envelope := ⟨none, some emptyChildTm, [sigR]⟩

/-- Top-level targets metadata delegating to "sub" before the
allow-rule. -/
def tmPanic : TargetsMetadata := ⟨1, some ⟨[("kr", kR)], [subDelC, allowRule]⟩⟩

/-- Targets envelope of the crash state. -/
def tenvPanic : Envelope := ⟨none, some tmPanic, [sigR]⟩

/-- A state that passes Verify and whose resolution of the main branch
path reaches the slice-bounds crash. -/
def sPanic : State := ⟨some renvFix, some tenvPanic, [("sub", subEnvC)], [kR]⟩

/-- Counterexample for C1 as stated: `sPanic` is a verified policy state
in which the matching non-terminating delegation "sub" carries an
envelope whose child roles list is empty.  The resolver then executes
Roles[:len(Roles)-1] on an empty slice and crashes (the sliceBoundsPanic
outcome) instead of continuing the claimed pre-order depth-first walk —
whose next step, evaluated explicitly in the second conjunct, would have
returned the keys [kR] normally. -/
theorem claim_C1_counterexample :
    (Verify checkAll sPanic = .ok () ∧
      FindPublicKeysForPath checkAll 3 sPanic "git:refs/heads/main" =
        some (.error .sliceBoundsPanic)) ∧
    (fpkLoop sPanic "git:refs/heads/main" 2 (mergeKeys [("kr", kR)] [])
        (List.dropLast [] ++ [allowRule]) [some kR] = some (.ok [some kR]) ∧
      (some (.error .sliceBoundsPanic) :
          Option (Except Err (List (Option Key)))) ≠ some (.ok [some kR])) := by
  have hve1 : verifyEnvelope checkAll renvFix [kR] 1 = .ok () := rfl
  have hve2 : verifyEnvelope checkAll tenvPanic [kR] 1 = .ok () := rfl
  have hcv1 : collectVerifierKeys rmFix.keys ["kr"] = some [kR] := rfl
  have hpt : subEnvC.payloadTargets = some emptyChildTm := rfl
  have hval : emptyChildTm.Validate = true := rfl
  have hed : emptyChildTm.delegations = some ⟨[], []⟩ := rfl
  have step1 := verifyDelegationsAux_consume checkAll [("kr", kR)] subDelC
    [allowRule] [("sub", subEnvC)] subEnvC [] [kR] emptyChildTm ⟨[], []⟩
    rfl rfl rfl hpt hval hed
  have step2 := verifyDelegationsAux_skip checkAll [("kr", kR)] allowRule []
    [] rfl
  have step3 := verifyDelegationsAux_nil checkAll [("kr", kR)]
    ([] : List (String × Envelope))
  have haux : verifyDelegationsAux checkAll [("kr", kR)] [subDelC, allowRule]
      [("sub", subEnvC)] = .ok [] := step1.trans (step2.trans step3)
  have hv : Verify checkAll sPanic = .ok () := by
    have e1 : sPanic.rootEnvelope = some renvFix := rfl
    have e2 : sPanic.targetsEnvelope = some tenvPanic := rfl
    have e3 : sPanic.rootPublicKeys = [kR] := rfl
    have e4 : sPanic.delegationEnvelopes = [("sub", subEnvC)] := rfl
    have e5 : renvFix.payloadRoot = some rmFix := rfl
    have e6 : roleFor rmFix TargetsRoleName = ⟨["kr"], 1⟩ := rfl
    have e7 : tenvPanic.payloadTargets = some tmPanic := rfl
    have e8 : tmPanic.Validate = true := rfl
    have e9 : tmPanic.delegations = some ⟨[("kr", kR)], [subDelC, allowRule]⟩ := rfl
    simp only [Verify, e1, e2, e3, e4, e5, e6, e7, e8, e9, List.length_cons,
      List.length_nil, Nat.zero_add, hve1, hve2, hcv1, List.isEmpty_cons,
      if_true, haux, List.isEmpty_nil]
    rfl
  refine ⟨⟨hv, ?_⟩, rfl, by simp⟩
  have htm : getTargetsMetadata sPanic TargetsRoleName = .ok tmPanic := rfl
  have e9 : tmPanic.delegations = some ⟨[("kr", kR)], [subDelC, allowRule]⟩ := rfl
  simp only [FindPublicKeysForPath, hv, htm, e9]
  rfl

end Gittuf

